import Mathlib

/-!
Verification of the review word-cloud pipeline (`review_wordcloud_app.py`).

The development shallowly embeds the data-processing pipeline of the
application: sentiment classification (rating mode and lexicon mode),
text normalization, noun extraction and filtering, frequency
aggregation (a model of `collections.Counter` with Python's
insertion-order semantics and `most_common`'s stable descending order),
word-cloud invocation, CSV decoding fallback, and insight-prompt
construction.  External collaborators (the Kiwi morphological tagger,
the word-cloud layout engine, Python's `random.sample`) are modelled as
explicit function parameters; everything written in the repository
itself is translated directly.
-/

namespace ReviewApp

open List

/-- Sentiment labels; the label set of the app is closed
(`"positive"`, `"negative"`, `"neutral"`). -/
inductive Sentiment where
  | positive
  | negative
  | neutral
deriving DecidableEq, Repr

/-- `STOPWORDS` from the source (the static Korean stopword set).
Python iterates it as a set of distinct strings; modelled as a
duplicate-free list. -/
def STOPWORDS : List String :=
  ["것", "수", "등", "더", "위", "때", "중", "곳", "걸", "뭐", "좀", "잘",
   "그", "이", "저", "또", "및", "를", "에", "의", "가", "은", "는", "로",
   "와", "과", "도", "들", "나", "때문", "거", "게", "데", "점", "듯",
   "정도", "제", "내", "네", "님", "분", "개", "번", "말", "다른", "다시",
   "하나", "여기", "거기", "어디", "언제", "어떻게", "왜", "무엇", "누구",
   "자체", "사용", "구매", "구입", "주문", "배송", "제품", "상품", "후기",
   "계속", "부분", "정말", "진짜", "완전", "너무", "아주", "매우", "엄청",
   "생각", "느낌", "기분", "처음", "마음"]

/-- `POSITIVE_WORDS` from the source: the positive sentiment markers. -/
def POSITIVE_WORDS : List String :=
  ["좋다", "좋아", "좋은", "최고", "만족", "추천", "훌륭", "완벽", "좋았",
   "대박", "사랑", "예쁘", "깔끔", "부드럽", "촉촉", "보습", "향기", "고급",
   "산뜻", "개운", "효과", "굿", "괜찮", "편하", "맘에"]

/-- `NEGATIVE_WORDS` from the source: the negative sentiment markers. -/
def NEGATIVE_WORDS : List String :=
  ["별로", "싫", "나쁘", "아쉽", "불만", "최악", "후회", "실망", "짜증",
   "자극", "따갑", "건조", "거칠", "아프", "불편", "비싸", "냄새", "가렵",
   "트러블", "뾰루지", "알레르기", "안좋", "못쓰"]

/-- `leadMatch w t`: the character list `t` starts with the character
list `w`. -/
def leadMatch : List Char → List Char → Bool
  | [], _ => true
  | _ :: _, [] => false
  | c :: ws, d :: ts => c == d && leadMatch ws ts

/-- Raw substring containment: `containsSub w t` holds iff the character
sequence `w` occurs contiguously inside `t`.  This models Python's
`w in text` containment test on strings (the empty string is contained
in everything). -/
def containsSub (w : List Char) : List Char → Bool
  | [] => leadMatch w []
  | d :: ts => leadMatch w (d :: ts) || containsSub w ts

/-- Number of positive markers contained in `text`
(`sum(1 for w in POSITIVE_WORDS if w in text)` in the source: each
marker contributes at most once, by raw containment). -/
def posHits (text : String) : Nat :=
  POSITIVE_WORDS.countP (fun w => containsSub w.data text.data)

/-- Number of negative markers contained in `text`
(`sum(1 for w in NEGATIVE_WORDS if w in text)` in the source). -/
def negHits (text : String) : Nat :=
  NEGATIVE_WORDS.countP (fun w => containsSub w.data text.data)

/-- `classify_sentiment_by_text` from the source: positive if more
positive-marker hits than negative ones, negative if the converse,
neutral on ties. -/
def classify_sentiment_by_text (text : String) : Sentiment :=
  let pos := posHits text
  let neg := negHits text
  if pos > neg then .positive else if neg > pos then .negative else .neutral

/-- Rating-mode classification, the lambda applied to the rating column:
`"positive" if r>=pmin else ("negative" if r<=nmax else "neutral")`.
The rating column is coerced with `pd.to_numeric(..., errors="coerce")`,
so a missing or non-numeric cell becomes NaN; every comparison with NaN
is false and such rows fall through to neutral.  Missing/NaN is
modelled as `none`. -/
def ratingSent (pmin nmax : ℚ) (r : Option ℚ) : Sentiment :=
  match r with
  | none => .neutral
  | some v => if v ≥ pmin then .positive else (if v ≤ nmax then .negative else .neutral)

/-! ### Text normalization and noun extraction -/

/-- One token of the opaque morphological tagger's output: a surface
form and a part-of-speech tag (for example `"NNG"`, `"NNP"`, `"SL"`). -/
structure Token where
  form : String
  tag : String
deriving DecidableEq, Repr

/-- Hangul syllable range `가-힣` of the source regex
(U+AC00 – U+D7A3). -/
def isHangulSyllable (c : Char) : Bool :=
  0xAC00 ≤ c.toNat && c.toNat ≤ 0xD7A3

/-- Python regex word character `\w` on `str`: Unicode alphanumerics
plus the underscore.  Modelled for the character repertoire this
application processes: ASCII alphanumerics, the underscore, Hangul
syllables and jamo, Hiragana, Katakana, and the CJK unified
ideographs.  (Alphabetic characters of scripts outside this repertoire
are not modelled.) -/
def isWordChar (c : Char) : Bool :=
  c == '_' || c.isAlphanum ||
  isHangulSyllable c ||
  (0x1100 ≤ c.toNat && c.toNat ≤ 0x11FF) ||
  (0x3131 ≤ c.toNat && c.toNat ≤ 0x318E) ||
  (0x3041 ≤ c.toNat && c.toNat ≤ 0x3096) ||
  (0x30A1 ≤ c.toNat && c.toNat ≤ 0x30FA) ||
  (0x4E00 ≤ c.toNat && c.toNat ≤ 0x9FFF)

/-- Python regex whitespace `\s` on `str`: Unicode whitespace. -/
def isSpaceChar (c : Char) : Bool :=
  c == ' ' || c == '\t' || c == '\n' || c.toNat == 0x0B || c.toNat == 0x0C ||
  c == '\r' || (0x1C ≤ c.toNat && c.toNat ≤ 0x1F) || c.toNat == 0x85 ||
  c.toNat == 0xA0 || c.toNat == 0x1680 ||
  (0x2000 ≤ c.toNat && c.toNat ≤ 0x200A) || c.toNat == 0x2028 ||
  c.toNat == 0x2029 || c.toNat == 0x202F || c.toNat == 0x205F ||
  c.toNat == 0x3000

/-- A character the regex `[^\w\s가-힣a-zA-Z]` does NOT match, i.e. one
that survives normalization unchanged.  The last two disjuncts mirror
the (redundant) `가-힣` and `a-zA-Z` alternatives of the source
pattern. -/
def keptChar (c : Char) : Bool :=
  isWordChar c || isSpaceChar c || isHangulSyllable c || c.isAlpha

/-- `re.sub(r"[^\w\s가-힣a-zA-Z]", " ", r)` from the source: every
character outside the kept class is replaced by a single space. -/
def cleanText (s : String) : String :=
  ⟨s.data.map (fun c => if keptChar c then c else ' ')⟩

/-- `extract_nouns` from the source: keep a tagged form iff its tag is
`NNG`, `NNP` or `SL`, its length is at least 2 (a hardcoded floor), and
it is not a stopword; return the surface forms in token order.  The
call `kiwi.analyze(text)` is opaque; this function consumes its token
list. -/
def extract_nouns (toks : List Token) : List String :=
  (toks.filter (fun t =>
    (t.tag == "NNG" || t.tag == "NNP" || t.tag == "SL") &&
    decide (2 ≤ t.form.length) &&
    !(STOPWORDS.contains t.form))).map Token.form

/-- The per-row body of `extr` in the source: the nouns of one cleaned
review, additionally filtered by the configured `min_wl` and the
user-exclusion set `esw`. -/
def extrRow (min_wl : Nat) (esw : List String) (toks : List Token) : List String :=
  (extract_nouns toks).filter (fun n =>
    decide (min_wl ≤ n.length) && !(esw.contains n))

/-! ### Frequency aggregation (`collections.Counter`) -/

/-- One `Counter`/dict update: bump the count of `t` if a binding
exists (Python dicts keep the original insertion position), otherwise
append a fresh binding `(t, 1)` at the end. -/
def insertTerm : List (String × Nat) → String → List (String × Nat)
  | [], t => [(t, 1)]
  | p :: ps, t => if p.1 = t then (p.1, p.2 + 1) :: ps else p :: insertTerm ps t

/-- `Counter(ns)`: fold the term list into an insertion-ordered
association list of counts. -/
def counterOf (l : List String) : List (String × Nat) :=
  l.foldl insertTerm []

/-- Count lookup in an insertion-ordered counter (0 for absent keys). -/
def countOf : List (String × Nat) → String → Nat
  | [], _ => 0
  | p :: ps, t => if p.1 = t then p.2 else countOf ps t

/-- The keys of a counter, in insertion order. -/
def keysOf (c : List (String × Nat)) : List String :=
  c.map Prod.fst

/-- `extr` from the source: normalize each review, run the (opaque)
tagger, extract and filter nouns, and accumulate all rows of a bucket
into one counter. -/
def extr (tagger : String → List Token) (min_wl : Nat) (esw : List String)
    (rvs : List String) : List (String × Nat) :=
  counterOf (rvs.flatMap (fun r => extrRow min_wl esw (tagger (cleanText r))))

/-- Stable descending insertion for `most_common`: `x` goes in front of
the first entry whose count is `≤` its own, so an earlier-accumulated
entry stays in front of every later entry of equal count. -/
def insertDesc (x : String × Nat) : List (String × Nat) → List (String × Nat)
  | [] => [x]
  | y :: ys => if y.2 ≤ x.2 then x :: y :: ys else y :: insertDesc x ys

/-- Stable sort by descending count (insertion sort). -/
def sortDesc : List (String × Nat) → List (String × Nat)
  | [] => []
  | x :: xs => insertDesc x (sortDesc xs)

/-- `Counter.most_common(n)`: the `n` highest-count entries in
descending count order; ties keep accumulation (insertion) order —
`heapq.nlargest` breaks ties in favour of the earlier position. -/
def most_common (c : List (String × Nat)) (n : Nat) : List (String × Nat) :=
  (sortDesc c).take n

/-! ### Word-cloud rendering and keyword table -/

/-- The keyword arguments `make_wc` passes to the `WordCloud`
constructor (the opaque layout engine): fixed canvas, background,
colormap, a hardcoded `max_words=80`, horizontal-text preference and
font-size bounds.  (`font_path` is resolved from the host system and
is outside the model.) -/
structure WCParams where
  width : Nat
  height : Nat
  background_color : String
  colormap : String
  max_words : Nat
  prefer_horizontal : ℚ
  min_font_size : Nat
  max_font_size : Nat
deriving DecidableEq, Repr

/-- The outcome of `make_wc`: either the fixed "no data" placeholder
figure, or an invocation of the layout engine with the recorded
parameters and frequency mapping. -/
inductive WCFigure where
  | placeholder (message : String)
  | cloud (params : WCParams) (freq : List (String × Nat))
deriving DecidableEq, Repr

/-- `make_wc` from the source: an empty frequency mapping produces the
placeholder figure carrying the "데이터 없음" (no data) message and the
layout engine is not invoked; otherwise the engine is invoked with the
fixed parameter record. -/
def make_wc (freq : List (String × Nat)) (cmap : String) : WCFigure :=
  if freq.isEmpty then .placeholder "데이터 없음"
  else .cloud ⟨1200, 600, "#0e1117", cmap, 80, (7 : ℚ) / 10, 14, 120⟩ freq

/-- The terms the opaque layout engine lays out for a figure: the
placeholder renders no terms; a cloud delegates to the engine with the
recorded frequency mapping and word cap. -/
def renderedTerms (engine : List (String × Nat) → Nat → List String) :
    WCFigure → List String
  | .placeholder _ => []
  | .cloud ps freq => engine freq ps.max_words

/-- The outcome of `show_kw_table`: either the "키워드 없음" (no
keywords) message, or the ranked table of the top `top_n` entries. -/
inductive KwTableView where
  | noKeywords (label : String)
  | table (rows : List (String × Nat))
deriving DecidableEq, Repr

/-- `show_kw_table` from the source: take `freq.most_common(top_n)`;
if that list is empty, show the no-keywords message, else the table. -/
def show_kw_table (freq : List (String × Nat)) (top_n : Nat)
    (label : String) : KwTableView :=
  let items := most_common freq top_n
  if items.isEmpty then .noKeywords label else .table items

/-! ### CSV decoding fallback -/

/-- The CSV decode `for`/`else` from the source: try
`utf-8-sig`, `utf-8`, `cp949`, `euc-kr` in order and keep the first
decode that succeeds (`break`); if every attempt raises
(`else` branch), decode permissively with replacement characters.  The
individual codecs are opaque partial decoders; the permissive decode
is total. -/
def decodeCSV {β σ : Type} (utf8sig utf8 cp949 euckr : β → Option σ)
    (permissive : β → σ) (raw : β) : σ :=
  match utf8sig raw with
  | some t => t
  | none =>
    match utf8 raw with
    | some t => t
    | none =>
      match cp949 raw with
      | some t => t
      | none =>
        match euckr raw with
        | some t => t
        | none => permissive raw

/-! ### Insight prompt construction -/

/-- Digit grouping of Python's `{n:,}` format: commas every three
digits (input and output are least-significant-first digit lists). -/
def commaGroup : List Char → List Char
  | c1 :: c2 :: c3 :: c4 :: rest => c1 :: c2 :: c3 :: ',' :: commaGroup (c4 :: rest)
  | l => l

/-- Python's `f"{n:,}"` for a natural number. -/
def commaFmt (n : Nat) : String :=
  ⟨(commaGroup (toString n).data.reverse).reverse⟩

/-- One keyword/count pair rendered as `f"{w}({c})"`. -/
def kwEntry (p : String × Nat) : String :=
  p.1 ++ "(" ++ toString p.2 ++ ")"

/-- The first `n` characters of a string (Python's `r[:n]`). -/
def takeChars (n : Nat) (s : String) : String :=
  ⟨s.data.take n⟩

/-- The quoted negative-review sample block of the prompt:
`"\n".join(f"- {r[:200]}" for r in neg_samples[:15])`, as a list of
lines — at most 15 samples, each truncated to 200 characters. -/
def sampleLines (neg_samples : List String) : List String :=
  (neg_samples.take 15).map (fun r => "- " ++ takeChars 200 r)

/-- The negative-sample selection at the call site:
`neg_rv[:15] if len(neg_rv)<=15 else random.sample(neg_rv,15)`.
`random.sample` is the opaque stdlib sampler, passed as `sample`. -/
def selectNegSamples (sample : List String → Nat → List String)
    (neg_rv : List String) : List String :=
  if neg_rv.length ≤ 15 then neg_rv.take 15 else sample neg_rv 15

/-- `build_prompt` from the source: a pure rendering of the fixed
(dedented) Korean report template from the top-15 positive and
negative keyword/count pairs, the truncated negative samples, and the
three counts.  No text generation happens here. -/
def build_prompt (pos_kw neg_kw : List (String × Nat))
    (neg_samples : List String) (total pos_n neg_n : Nat) : String :=
  let pk := String.intercalate ", " ((pos_kw.take 15).map kwEntry)
  let nk := String.intercalate ", " ((neg_kw.take 15).map kwEntry)
  let ns := String.intercalate "\n" (sampleLines neg_samples)
  "당신은 전천후 데이터 사이언티스트이자 마케팅 전략가입니다.\n" ++
  "\n" ++
  "## 분석 데이터\n" ++
  "- 전체 리뷰: " ++ commaFmt total ++ "개 / 긍정: " ++ commaFmt pos_n ++
    "개 / 부정: " ++ commaFmt neg_n ++ "개\n" ++
  "- 긍정 키워드 TOP15: " ++ pk ++ "\n" ++
  "- 부정 키워드 TOP15: " ++ nk ++ "\n" ++
  "\n" ++
  "## 부정 리뷰 샘플\n" ++
  ns ++ "\n" ++
  "\n" ++
  "위 데이터 기반으로 아래 4단계 마케팅 보고서를 한국어 마크다운으로 작성하세요.\n" ++
  "\n" ++
  "# Step 1: 데이터 탐색 및 카테고리 정의\n" ++
  "1. 제품/서비스 카테고리 정의\n" ++
  "2. 핵심 키워드 TOP10 → [긍정적 특징(USP)] vs [부정적 불만(Pain Point)] 분류\n" ++
  "\n" ++
  "# Step 2: 동적 마케팅 인사이트 도출 (3가지 전략)\n" ++
  "1. [강점 극대화] 긍정 키워드 → 광고 카피 / 메인 후킹 문구 제안\n" ++
  "2. [위기 및 이탈 방지] 부정 키워드 → 상세페이지 해명·보완 전략\n" ++
  "3. [사용 맥락 분석(TPO)] 사용 상황 분석 → 타겟 마케팅 방향\n" ++
  "\n" ++
  "# Step 3: 취약 지점 심층 분석 (Voice of Customer)\n" ++
  "1. 문제 키워드 2~3개 선정\n" ++
  "2. 위 리뷰 원문 인용하며 구체적 불만 분석\n" ++
  "3. 마케터가 놓치기 쉬운 디테일한 불만 포인트 요약\n" ++
  "\n" ++
  "# Step 4: 실행 가능한 액션 플랜\n" ++
  "- 즉시 실행 가능한 광고 소재 아이디어 3가지 (이미지/영상 컨셉 + 광고 카피)\n"

/-! ## Theorems -/

/-! ### Counter lemmas -/

theorem countOf_insertTerm (c : List (String × Nat)) (t s : String) :
    countOf (insertTerm c t) s = if s = t then countOf c s + 1 else countOf c s := by
  induction c with
  | nil =>
    by_cases h : s = t
    · subst h; simp [insertTerm, countOf]
    · simp [insertTerm, countOf, h, Ne.symm h]
  | cons p ps ih =>
    by_cases hpt : p.1 = t
    · by_cases hps : p.1 = s
      · have hst : s = t := hps ▸ hpt
        simp [insertTerm, countOf, hpt, hps, hst]
      · have hst : ¬ s = t := fun h => hps (h ▸ hpt)
        simp [insertTerm, countOf, hpt, hps, hst, Ne.symm hst]
    · by_cases hps : p.1 = s
      · have hst : ¬ s = t := fun h => hpt (h ▸ hps)
        simp [insertTerm, countOf, hpt, hps, hst]
      · simp [insertTerm, countOf, hpt, hps, ih]

theorem countOf_foldl (l : List String) (c : List (String × Nat)) (s : String) :
    countOf (l.foldl insertTerm c) s = countOf c s + l.count s := by
  induction l generalizing c with
  | nil => simp
  | cons x xs ih =>
    simp only [List.foldl_cons, ih, countOf_insertTerm, List.count_cons, beq_iff_eq]
    by_cases h : s = x
    · subst h; simp; omega
    · simp [h, Ne.symm h]

theorem countOf_counterOf (l : List String) (s : String) :
    countOf (counterOf l) s = l.count s := by
  simp [counterOf, countOf_foldl, countOf]

theorem mem_keysOf_insertTerm (c : List (String × Nat)) (t s : String) :
    s ∈ keysOf (insertTerm c t) ↔ s ∈ keysOf c ∨ s = t := by
  induction c with
  | nil => simp [insertTerm, keysOf, eq_comm]
  | cons p ps ih =>
    simp only [insertTerm]
    split_ifs with h <;> simp_all [keysOf] <;> tauto

theorem mem_keysOf_foldl (l : List String) (c : List (String × Nat)) (s : String) :
    s ∈ keysOf (l.foldl insertTerm c) ↔ s ∈ keysOf c ∨ s ∈ l := by
  induction l generalizing c with
  | nil => simp
  | cons x xs ih =>
    simp only [List.foldl_cons, ih, mem_keysOf_insertTerm, List.mem_cons]
    tauto

theorem mem_keysOf_counterOf (l : List String) (s : String) :
    s ∈ keysOf (counterOf l) ↔ s ∈ l := by
  rw [counterOf, mem_keysOf_foldl]
  simp [keysOf]

/-- Membership characterization of the per-row extraction pipeline:
a surface form appears in the filtered output iff some token of the
row carries it with a noun/foreign tag, it passes both length floors,
and it avoids the stopword and exclusion sets. -/
theorem mem_extrRow (min_wl : Nat) (esw : List String) (toks : List Token)
    (t : String) :
    t ∈ extrRow min_wl esw toks ↔
      ∃ tok ∈ toks, tok.form = t ∧
        (tok.tag = "NNG" ∨ tok.tag = "NNP" ∨ tok.tag = "SL") ∧
        2 ≤ t.length ∧ min_wl ≤ t.length ∧
        t ∉ STOPWORDS ∧ t ∉ esw := by
  simp only [extrRow, extract_nouns, List.mem_filter, List.mem_map,
    List.mem_filter, Bool.and_eq_true, Bool.or_eq_true, beq_iff_eq,
    decide_eq_true_eq, Bool.not_eq_true', ← Bool.not_eq_true,
    List.contains_iff_exists_mem_beq, beq_iff_eq, or_assoc]
  constructor
  · rintro ⟨⟨tok, ⟨htok, ⟨htag, hlen2⟩, hsw⟩, rfl⟩, hwl, hesw⟩
    refine ⟨tok, htok, rfl, htag, hlen2, hwl, ?_, ?_⟩
    · rintro hmem; exact hsw ⟨tok.form, hmem, rfl⟩
    · rintro hmem; exact hesw ⟨tok.form, hmem, rfl⟩
  · rintro ⟨tok, htok, rfl, htag, hlen2, hwl, hsw, hesw⟩
    refine ⟨⟨tok, ⟨htok, ⟨htag, hlen2⟩, ?_⟩, rfl⟩, hwl, ?_⟩
    · rintro ⟨x, hx, rfl⟩; exact hsw hx
    · rintro ⟨x, hx, rfl⟩; exact hesw hx

/-! ### Claim theorems (continued) -/

/-- **C4.** Frequency Table key invariant: every key of the
term-to-count mapping produced by the aggregator avoids the stopword
set and the user-exclusion set, and is at least `min_word_length`
characters long. -/
theorem C4_frequency_table_keys (tagger : String → List Token) (min_wl : Nat)
    (esw : List String) (rvs : List String) (t : String)
    (h : t ∈ keysOf (extr tagger min_wl esw rvs)) :
    t ∉ STOPWORDS ∧ t ∉ esw ∧ min_wl ≤ t.length := by
  rw [extr, mem_keysOf_counterOf, List.mem_flatMap] at h
  obtain ⟨r, _, hrow⟩ := h
  obtain ⟨tok, _, rfl, _, _, hwl, hsw, hesw⟩ := (mem_extrRow _ _ _ _).1 hrow
  exact ⟨hsw, hesw, hwl⟩

/-- Witness for C4: with a tagger emitting the single common noun
`물맛`, configuration `min_wl = 2`, no exclusions, and one review row,
the key `물맛` of the resulting table is outside the stopword and
exclusion sets and long enough. -/
theorem C4_frequency_table_keys_witness :
    "물맛" ∉ STOPWORDS ∧ "물맛" ∉ ([] : List String) ∧ 2 ≤ "물맛".length :=
  C4_frequency_table_keys (fun _ => [⟨"물맛", "NNG"⟩]) 2 [] ["물맛이 좋아요"] "물맛"
    (by decide)

/-- **C9.** Implicit hard length floor: whatever `min_word_length` is
configured (including 1), every key of the aggregated table is at
least 2 characters long, because `extract_nouns` applies a hardcoded
`len(t.form) >= 2` filter before the configured filter runs. -/
theorem C9_hard_length_floor (tagger : String → List Token) (min_wl : Nat)
    (esw : List String) (rvs : List String) (t : String)
    (h : t ∈ keysOf (extr tagger min_wl esw rvs)) :
    2 ≤ t.length := by
  rw [extr, mem_keysOf_counterOf, List.mem_flatMap] at h
  obtain ⟨r, _, hrow⟩ := h
  obtain ⟨tok, _, rfl, _, hlen2, _⟩ := (mem_extrRow _ _ _ _).1 hrow
  exact hlen2

/-- Witness for C9: with `min_word_length = 1`, the key `물맛` emitted
by the pipeline still has length at least 2. -/
theorem C9_hard_length_floor_witness : 2 ≤ "물맛".length :=
  C9_hard_length_floor (fun _ => [⟨"물맛", "NNG"⟩]) 1 [] ["물맛이 좋아요"] "물맛"
    (by decide)

/-- **C3, counterexample.** The claim fails on the code in two places.
First, the underscore is neither whitespace, nor Hangul, nor an ASCII
letter or digit, so the claim says `cleanText "a_b" = "a b"`; but the
regex class contains `\w`, which matches the underscore, so the code
leaves `"a_b"` unchanged.  Second, with `min_word_length = 1` the claim
says the 1-character common noun `물` (not a stopword) is retained; the
hardcoded `len(t.form) >= 2` filter in `extract_nouns` drops it. -/
theorem C3_counterexample :
    cleanText "a_b" = "a_b" ∧ cleanText "a_b" ≠ "a b" ∧
    extrRow 1 [] [⟨"물", "NNG"⟩] = [] := by
  refine ⟨by decide, by decide, by decide⟩

/-- **C3 (amended).** Normalization keeps exactly the characters
matched by `\w` (any-script word characters, including the
underscore), `\s`, the Hangul range, and ASCII letters, replacing
every other character by a single space at the same position; and a
tagged surface form is retained iff its tag is `NNG`, `NNP` or `SL`,
its length is at least 2 AND at least `min_word_length`, and it is
absent from the stopword and user-exclusion sets. -/
theorem C3_normalization_and_retention (s : String) (toks : List Token)
    (min_wl : Nat) (esw : List String) :
    (cleanText s).length = s.length ∧
    (∀ (i : Nat) (h : i < (cleanText s).data.length) (h' : i < s.data.length),
      (cleanText s).data.get ⟨i, h⟩ =
        if keptChar (s.data.get ⟨i, h'⟩) then s.data.get ⟨i, h'⟩ else ' ') ∧
    (∀ t, t ∈ extrRow min_wl esw toks ↔
      ∃ tok ∈ toks, tok.form = t ∧
        (tok.tag = "NNG" ∨ tok.tag = "NNP" ∨ tok.tag = "SL") ∧
        2 ≤ t.length ∧ min_wl ≤ t.length ∧
        t ∉ STOPWORDS ∧ t ∉ esw) := by
  have hdata : (cleanText s).data =
      s.data.map (fun c => if keptChar c then c else ' ') := rfl
  refine ⟨?_, ?_, fun t => mem_extrRow min_wl esw toks t⟩
  · rw [String.length, String.length, hdata, List.length_map]
  · intro i h h'
    simp only [hdata, List.get_eq_getElem, List.getElem_map]

/-- Witness for C3 (amended): in `"가!맛"` the exclamation mark at
index 1 becomes a space while the length is preserved, and the
two-character noun `물맛` passes the retention filter. -/
theorem C3_normalization_and_retention_witness :
    (cleanText "가!맛").length = 3 ∧
    (cleanText "가!맛").data.get ⟨1, by decide⟩ = ' ' ∧
    "물맛" ∈ extrRow 2 [] [⟨"물맛", "NNG"⟩] := by
  have h := C3_normalization_and_retention "가!맛" [⟨"물맛", "NNG"⟩] 2 []
  refine ⟨h.1.trans (by decide), (h.2.1 1 (by decide) (by decide)).trans (by decide), ?_⟩
  exact (h.2.2 "물맛").mpr
    ⟨⟨"물맛", "NNG"⟩, by simp, rfl, Or.inl rfl, by decide, by decide, by decide, by decide⟩

/-! ### Stable sorting lemmas for `most_common` -/

theorem insertDesc_eq (x : String × Nat) (s : List (String × Nat)) :
    insertDesc x s =
      s.takeWhile (fun y => !decide (y.2 ≤ x.2)) ++
        x :: s.dropWhile (fun y => !decide (y.2 ≤ x.2)) := by
  induction s with
  | nil => simp [insertDesc]
  | cons y ys ih =>
    by_cases h : y.2 ≤ x.2
    · simp [insertDesc, h, List.takeWhile_cons, List.dropWhile_cons]
    · simp [insertDesc, h, List.takeWhile_cons, List.dropWhile_cons, ih]

theorem sublist_insertDesc (x : String × Nat) (s : List (String × Nat)) :
    s <+ insertDesc x s := by
  induction s with
  | nil => simp [insertDesc]
  | cons y ys ih =>
    by_cases h : y.2 ≤ x.2
    · simp only [insertDesc, if_pos h]
      exact List.Sublist.cons x (List.Sublist.refl _)
    · simp only [insertDesc, if_neg h]
      exact List.Sublist.cons₂ y ih

theorem pair_sublist_insertDesc (x b : String × Nat) (s : List (String × Nat))
    (hb : b ∈ s) (hle : b.2 ≤ x.2) : [x, b] <+ insertDesc x s := by
  rw [insertDesc_eq]
  have hb' : b ∈ s.takeWhile (fun y => !decide (y.2 ≤ x.2)) ++
      s.dropWhile (fun y => !decide (y.2 ≤ x.2)) := by
    rw [List.takeWhile_append_dropWhile]; exact hb
  have hbd : b ∈ s.dropWhile (fun y => !decide (y.2 ≤ x.2)) := by
    rcases List.mem_append.mp hb' with h | h
    · have := List.mem_takeWhile_imp h
      simp [hle] at this
    · exact h
  have h1 : [x, b] <+ x :: s.dropWhile (fun y => !decide (y.2 ≤ x.2)) :=
    List.Sublist.cons₂ x (List.singleton_sublist.mpr hbd)
  exact h1.trans (List.sublist_append_right _ _)

theorem insertDesc_perm (x : String × Nat) (s : List (String × Nat)) :
    insertDesc x s ~ x :: s := by
  induction s with
  | nil => exact List.Perm.refl _
  | cons y ys ih =>
    by_cases h : y.2 ≤ x.2
    · simp [insertDesc, h]
    · simp only [insertDesc, if_neg h]
      exact (ih.cons y).trans (List.Perm.swap x y ys)

theorem sortDesc_perm (l : List (String × Nat)) : sortDesc l ~ l := by
  induction l with
  | nil => exact List.Perm.refl _
  | cons x xs ih => exact (insertDesc_perm x (sortDesc xs)).trans (ih.cons x)

theorem stable_sortDesc (l : List (String × Nat)) (a b : String × Nat)
    (h : [a, b] <+ l) (hle : b.2 ≤ a.2) : [a, b] <+ sortDesc l := by
  induction l with
  | nil => cases h
  | cons x xs ih =>
    cases h with
    | cons _ h' => exact (ih h').trans (sublist_insertDesc x (sortDesc xs))
    | cons₂ _ h' =>
      have hbmem : b ∈ sortDesc xs :=
        (sortDesc_perm xs).mem_iff.mpr (List.singleton_sublist.mp h')
      exact pair_sublist_insertDesc a b (sortDesc xs) hbmem hle

theorem pair_sublist_take (m : List (String × Nat)) (a b : String × Nat) (n : Nat)
    (h : [a, b] <+ m) (hnd : m.Nodup) (hbn : b ∈ m.take n) : [a, b] <+ m.take n := by
  induction m generalizing n with
  | nil => cases h
  | cons x xs ih =>
    obtain ⟨hx, hxs⟩ := List.nodup_cons.mp hnd
    cases n with
    | zero => simp at hbn
    | succ k =>
      simp only [List.take_succ_cons] at hbn ⊢
      cases h with
      | cons _ h' =>
        have hbxs : b ∈ xs := h'.subset (by simp)
        rcases List.mem_cons.mp hbn with hbx | hbk
        · exact absurd (hbx ▸ hbxs) hx
        · exact List.Sublist.cons x (ih k h' hxs hbk)
      | cons₂ _ h' =>
        have hbxs : b ∈ xs := List.singleton_sublist.mp h'
        rcases List.mem_cons.mp hbn with hbx | hbk
        · exact absurd (hbx ▸ hbxs) hx
        · exact List.Sublist.cons₂ a (List.singleton_sublist.mpr hbk)

theorem keysOf_insertTerm_nodup (c : List (String × Nat)) (t : String)
    (h : (keysOf c).Nodup) : (keysOf (insertTerm c t)).Nodup := by
  induction c with
  | nil => simp [insertTerm, keysOf]
  | cons p ps ih =>
    simp only [keysOf, List.map_cons, List.nodup_cons] at h
    obtain ⟨hp, hps⟩ := h
    simp only [insertTerm]
    split_ifs with hpt
    · simp only [keysOf, List.map_cons, List.nodup_cons]
      exact ⟨hp, hps⟩
    · simp only [keysOf, List.map_cons, List.nodup_cons]
      refine ⟨?_, ih hps⟩
      intro hmem
      rcases (mem_keysOf_insertTerm ps t p.1).1 hmem with hm | hm
      · exact hp hm
      · exact hpt hm

theorem keysOf_foldl_nodup (l : List String) (c : List (String × Nat))
    (h : (keysOf c).Nodup) : (keysOf (l.foldl insertTerm c)).Nodup := by
  induction l generalizing c with
  | nil => exact h
  | cons x xs ih => exact ih _ (keysOf_insertTerm_nodup c x h)

theorem counterOf_nodup (l : List String) : (counterOf l).Nodup :=
  List.Nodup.of_map Prod.fst (keysOf_foldl_nodup l [] (by simp [keysOf]))

/-- **C5.** Frequency aggregation is permutation-invariant in its
counts: permuting the rows of a bucket leaves every term's count
unchanged; but the top-N selection order is not permutation-invariant:
among entries of equal count, the entry accumulated first precedes the
other in every `most_common` listing in which the latter appears, and
two permuted inputs can produce differently ordered listings. -/
theorem C5_aggregation_order (tagger : String → List Token) (min_wl : Nat)
    (esw : List String) (rvs rvs' : List String) (hperm : rvs.Perm rvs')
    (l : List String) (n : Nat) (a b : String × Nat) :
    (∀ t, countOf (extr tagger min_wl esw rvs) t =
      countOf (extr tagger min_wl esw rvs') t) ∧
    ([a, b] <+ counterOf l → a.2 = b.2 → b ∈ most_common (counterOf l) n →
      [a, b] <+ most_common (counterOf l) n) ∧
    most_common (counterOf ["A", "B"]) 2 ≠ most_common (counterOf ["B", "A"]) 2 := by
  refine ⟨?_, ?_, by decide⟩
  · intro t
    simp only [extr, countOf_counterOf]
    exact (List.Perm.flatMap_right _ hperm).count_eq t
  · intro hab heq hbmem
    have h1 : [a, b] <+ sortDesc (counterOf l) :=
      stable_sortDesc _ a b hab (le_of_eq heq.symm)
    have hnd : (sortDesc (counterOf l)).Nodup :=
      ((sortDesc_perm _).nodup_iff).mpr (counterOf_nodup l)
    exact pair_sublist_take _ a b n h1 hnd hbmem

/-- Witness for C5: swapping two rows leaves the count of `"x"`
unchanged, and in the counter built from `"A"` then `"B"` (equal
counts) the entry for `"A"` precedes the entry for `"B"` in the top-2
listing. -/
theorem C5_aggregation_order_witness :
    (countOf (extr (fun _ => []) 2 [] ["a", "b"]) "x" =
      countOf (extr (fun _ => []) 2 [] ["b", "a"]) "x") ∧
    [("A", 1), ("B", 1)] <+ most_common (counterOf ["A", "B"]) 2 := by
  have h := C5_aggregation_order (fun _ => []) 2 [] ["a", "b"] ["b", "a"]
    (List.Perm.swap "b" "a" []) ["A", "B"] 2 ("A", 1) ("B", 1)
  exact ⟨h.1 "x", h.2.1 (List.Sublist.refl _) rfl (by decide)⟩

/-- **C6.** Empty-bucket handling: an empty frequency mapping makes
`make_wc` return the fixed "no data" placeholder and never reach the
layout engine (so no engine renders any term for it), and makes the
keyword-table stage show the no-keywords message; a non-empty mapping
is delegated to the layout engine. -/
theorem C6_empty_bucket_handling (freq : List (String × Nat)) (top_n : Nat)
    (label cmap : String) (engine : List (String × Nat) → Nat → List String)
    (h : freq ≠ []) :
    make_wc [] cmap = .placeholder "데이터 없음" ∧
    (∀ ps f, make_wc [] cmap ≠ .cloud ps f) ∧
    renderedTerms engine (make_wc [] cmap) = [] ∧
    show_kw_table [] top_n label = .noKeywords label ∧
    (∃ ps, make_wc freq cmap = .cloud ps freq) := by
  refine ⟨rfl, ?_, rfl, ?_, ?_⟩
  · intro ps f hcontra
    simp [make_wc] at hcontra
  · simp [show_kw_table, most_common, sortDesc, List.take_nil]
  · cases freq with
    | nil => exact absurd rfl h
    | cons x xs => exact ⟨_, rfl⟩

/-- Witness for C6: the empty mapping yields the placeholder and the
no-keywords message; the singleton mapping `물맛 ↦ 3` yields an engine
invocation. -/
theorem C6_empty_bucket_handling_witness :
    make_wc [] "Set2" = .placeholder "데이터 없음" ∧
    show_kw_table [] 20 "긍정" = .noKeywords "긍정" ∧
    (∃ ps, make_wc [("물맛", 3)] "Set2" = .cloud ps [("물맛", 3)]) := by
  have h := C6_empty_bucket_handling [("물맛", 3)] 20 "긍정" "Set2"
    (fun f c => (f.map Prod.fst).take c) (by decide)
  exact ⟨h.1, h.2.2.2.1, h.2.2.2.2⟩

/-- **C7.** Delimited-text decoding fallback: decoding tries
`utf-8-sig`, `utf-8`, `cp949`, `euc-kr` in that order, uses the first
decoder that succeeds, and if all four fail falls back to the
permissive replacement-character decode instead of failing. -/
theorem C7_encoding_fallback {β σ : Type} (d1 d2 d3 d4 : β → Option σ)
    (rep : β → σ) (raw : β) :
    (∀ t, d1 raw = some t → decodeCSV d1 d2 d3 d4 rep raw = t) ∧
    (∀ t, d1 raw = none → d2 raw = some t → decodeCSV d1 d2 d3 d4 rep raw = t) ∧
    (∀ t, d1 raw = none → d2 raw = none → d3 raw = some t →
      decodeCSV d1 d2 d3 d4 rep raw = t) ∧
    (∀ t, d1 raw = none → d2 raw = none → d3 raw = none → d4 raw = some t →
      decodeCSV d1 d2 d3 d4 rep raw = t) ∧
    (d1 raw = none → d2 raw = none → d3 raw = none → d4 raw = none →
      decodeCSV d1 d2 d3 d4 rep raw = rep raw) := by
  refine ⟨?_, ?_, ?_, ?_, ?_⟩ <;> intros <;> simp_all [decodeCSV]

/-- Witness for C7: with the first decoder failing and the second
succeeding, the second decoder's output is used; with all four
failing, the permissive decode is used. -/
theorem C7_encoding_fallback_witness :
    decodeCSV (fun _ => none) (fun _ => some "ok") (fun _ => none)
      (fun _ => none) (fun _ => "rep") (0 : Nat) = "ok" ∧
    decodeCSV (fun _ => none) (fun _ => none) (fun _ => none)
      (fun _ => (none : Option String)) (fun _ => "rep") (0 : Nat) = "rep" := by
  have h := @C7_encoding_fallback Nat String (fun _ => none) (fun _ => some "ok")
    (fun _ => none) (fun _ => none) (fun _ => "rep") 0
  have h' := @C7_encoding_fallback Nat String (fun _ => none) (fun _ => none)
    (fun _ => none) (fun _ => none) (fun _ => "rep") 0
  exact ⟨h.2.1 "ok" rfl rfl, h'.2.2.2.2 rfl rfl rfl rfl⟩

/-- **C8.** Insight prompt construction: the prompt depends only on the
first 15 positive and first 15 negative keyword/count pairs; every
quoted sample line is built from a sample truncated to at most 200
characters; all negative reviews are used when there are at most 15 of
them, and otherwise the opaque sampler `random.sample` is invoked for
exactly 15 — for any sampler meeting its documented contract
(`k` elements chosen without replacement) the selection has length 15
and is a sub-multiset of the negative reviews.  `build_prompt` is a
pure rendering of the fixed template (no generation happens here). -/
theorem C8_prompt_construction (pos_kw neg_kw : List (String × Nat))
    (neg_samples neg_rv : List String) (total pos_n neg_n : Nat)
    (sample : List String → Nat → List String)
    (hs : ∀ (l : List String) (k : Nat), k ≤ l.length →
      (sample l k).length = k ∧ (sample l k).Subperm l) :
    (build_prompt pos_kw neg_kw neg_samples total pos_n neg_n =
      build_prompt (pos_kw.take 15) (neg_kw.take 15) (neg_samples.take 15)
        total pos_n neg_n) ∧
    (∀ line ∈ sampleLines neg_samples, ∃ r ∈ neg_samples,
      line = "- " ++ takeChars 200 r ∧ (takeChars 200 r).length ≤ 200) ∧
    (neg_rv.length ≤ 15 → selectNegSamples sample neg_rv = neg_rv) ∧
    (15 < neg_rv.length →
      selectNegSamples sample neg_rv = sample neg_rv 15 ∧
      (selectNegSamples sample neg_rv).length = 15 ∧
      (selectNegSamples sample neg_rv).Subperm neg_rv) := by
  refine ⟨?_, ?_, ?_, ?_⟩
  · simp [build_prompt, sampleLines, List.take_take]
  · intro line hline
    simp only [sampleLines, List.mem_map] at hline
    obtain ⟨r, hr, rfl⟩ := hline
    exact ⟨r, List.mem_of_mem_take hr, rfl, List.length_take_le _ _⟩
  · intro hle
    simp [selectNegSamples, hle, List.take_of_length_le hle]
  · intro hgt
    have hnot : ¬ neg_rv.length ≤ 15 := by omega
    obtain ⟨hl, hsp⟩ := hs neg_rv 15 (le_of_lt hgt)
    exact ⟨by simp [selectNegSamples, hnot], by simp [selectNegSamples, hnot, hl],
      by simp only [selectNegSamples, if_neg hnot]; exact hsp⟩

/-- Witness for C8: with a single negative review (at most 15), the
selection is all the negative reviews, for the concrete
without-replacement sampler that takes a leading slice. -/
theorem C8_prompt_construction_witness :
    selectNegSamples (fun l k => l.take k) ["부정 리뷰"] = ["부정 리뷰"] :=
  (C8_prompt_construction [] [] [] ["부정 리뷰"] 0 0 0 (fun l k => l.take k)
    (fun l k hk => ⟨List.length_take_of_le hk, (List.take_sublist k l).subperm⟩)).2.2.1
    (by decide)

/-- **C10.** Renderer word cap: the mapping handed to `make_wc` is
truncated to the `max_words` highest-count entries, but the layout
engine is always invoked with the hardcoded cap 80, independent of the
configured `max_words`; hence for any engine respecting its cap the
rendered cloud holds at most 80 terms even when `max_words > 80`. -/
theorem C10_renderer_word_cap (freq : List (String × Nat)) (max_words : Nat)
    (cmap : String) (engine : List (String × Nat) → Nat → List String)
    (hcap : ∀ f c, (engine f c).length ≤ c) :
    (most_common freq max_words).length ≤ max_words ∧
    (∀ f, f ≠ [] → ∃ ps, make_wc f cmap = .cloud ps f ∧ ps.max_words = 80) ∧
    (renderedTerms engine (make_wc (most_common freq max_words) cmap)).length ≤ 80 := by
  refine ⟨List.length_take_le _ _, ?_, ?_⟩
  · intro f hf
    cases f with
    | nil => exact absurd rfl hf
    | cons x xs => exact ⟨_, rfl, rfl⟩
  · cases hmc : most_common freq max_words with
    | nil => simp [make_wc, renderedTerms]
    | cons x xs => exact hcap (x :: xs) 80

/-- Witness for C10: with configured `max_words = 200` and a
cap-respecting engine, the rendered cloud of a two-row bucket holds at
most 80 terms. -/
theorem C10_renderer_word_cap_witness :
    (most_common (counterOf ["물맛", "향기"]) 200).length ≤ 200 ∧
    (renderedTerms (fun f c => (f.map Prod.fst).take c)
      (make_wc (most_common (counterOf ["물맛", "향기"]) 200) "Set2")).length ≤ 80 := by
  have h := C10_renderer_word_cap (counterOf ["물맛", "향기"]) 200 "Set2"
    (fun f c => (f.map Prod.fst).take c)
    (fun f c => List.length_take_le _ _)
  exact ⟨h.1, h.2.2⟩

/-- **C1.** Rating-mode sentiment classification: for every rating value
`r` and thresholds `(p, n)`, the row is labeled positive iff the rating
is present and `≥ p`; negative iff present, `≤ n`, and not already
positive; neutral exactly when the rating is missing/non-numeric or
satisfies neither comparison.  In the overlapping case a rating
satisfying both comparisons is labeled positive (positive wins by
evaluation order). -/
theorem C1_rating_mode_classification (p n : ℚ) (r : Option ℚ) :
    (ratingSent p n r = .positive ↔ ∃ v, r = some v ∧ p ≤ v) ∧
    (ratingSent p n r = .negative ↔ ∃ v, r = some v ∧ v ≤ n ∧ ¬ p ≤ v) ∧
    (ratingSent p n r = .neutral ↔
      r = none ∨ ∃ v, r = some v ∧ ¬ p ≤ v ∧ ¬ v ≤ n) ∧
    (∀ v, r = some v → p ≤ v → v ≤ n → ratingSent p n r = .positive) := by
  rcases r with _ | v
  · refine ⟨?_, ?_, ?_, ?_⟩ <;> simp [ratingSent]
  · refine ⟨?_, ?_, ?_, ?_⟩ <;> simp only [ratingSent, ge_iff_le] <;> split_ifs with h1 h2 <;>
      simp_all

/-- Witness for C1: thresholds `p = 4, n = 2` label rating 5 positive,
rating 1 negative, a missing rating neutral; with overlapping
thresholds `p = 2, n = 3` the rating 2 satisfies both comparisons and
is labeled positive. -/
theorem C1_rating_mode_classification_witness :
    ratingSent 4 2 (some 5) = .positive ∧
    ratingSent 4 2 (some 1) = .negative ∧
    ratingSent 4 2 none = .neutral ∧
    ratingSent 2 3 (some 2) = .positive := by
  refine ⟨?_, ?_, ?_, ?_⟩
  · exact (C1_rating_mode_classification 4 2 (some 5)).1.mpr ⟨5, rfl, by norm_num⟩
  · exact (C1_rating_mode_classification 4 2 (some 1)).2.1.mpr
      ⟨1, rfl, by norm_num, by norm_num⟩
  · exact (C1_rating_mode_classification 4 2 none).2.2.1.mpr (Or.inl rfl)
  · exact (C1_rating_mode_classification 2 3 (some 2)).2.2.2 2 rfl (by norm_num) (by norm_num)

/-- **C2.** Lexicon-mode sentiment classification: the classifier counts,
by raw substring containment, the positive-marker hits and the
negative-marker hits in the text; it returns positive iff the positive
count exceeds the negative count, negative iff the negative count
exceeds the positive count, and neutral exactly on a tie; in
particular any text with zero hits on both sides — including the empty
string — is neutral. -/
theorem C2_lexicon_mode_classification (text : String) :
    (classify_sentiment_by_text text = .positive ↔ negHits text < posHits text) ∧
    (classify_sentiment_by_text text = .negative ↔ posHits text < negHits text) ∧
    (classify_sentiment_by_text text = .neutral ↔ posHits text = negHits text) ∧
    (posHits text = 0 → negHits text = 0 → classify_sentiment_by_text text = .neutral) ∧
    classify_sentiment_by_text "" = .neutral := by
  refine ⟨?_, ?_, ?_, ?_, ?_⟩
  · simp only [classify_sentiment_by_text]
    split_ifs <;> simp_all <;> omega
  · simp only [classify_sentiment_by_text]
    split_ifs <;> simp_all <;> omega
  · simp only [classify_sentiment_by_text]
    split_ifs <;> simp_all <;> omega
  · intro h1 h2; simp [classify_sentiment_by_text, h1, h2]
  · decide

/-- Witness for C2: the text `"가"` contains no positive and no negative
marker, and the classifier labels it neutral. -/
theorem C2_lexicon_mode_classification_witness :
    classify_sentiment_by_text "가" = .neutral :=
  (C2_lexicon_mode_classification "가").2.2.2.1 (by decide) (by decide)

end ReviewApp


